import Mathlib

/-!
# Segment renderer of `lcd_write_memory.c`

A shallow embedding of the glyph tables and of `LCD_showChar`, the routine that
writes the four 4-bit segment patterns of a character into the byte-addressed
segment memory of the LCD controller, followed by the properties of the
renderer stated in the specification.

Conventions of the embedding:

* a C `char` is its character code, a natural number (`'0'` is 48, `'A'` is 65);
  a negative code of a signed `char` satisfies neither range test of the
  renderer and behaves like any other unsupported code;
* a `uint32_t` pin identifier is a natural number; only `/ 2` and `% 2` are
  applied to it, so no wrap-around can occur;
* the segment memory is a map from byte index to byte value; the statement
  `DL_LCD_writeMemory(LCD, idx, mask)` becomes a function returning the updated
  memory, and `LCD_showChar` threads the memory through its four writes.
-/

namespace LcdWriteMemory

/-! ## Constants, types and tables -/

/-- The macro `ASCII_DIGIT_OFFSET`, the code of `'0'`. -/
def ASCII_DIGIT_OFFSET : Nat := 48

/-- The macro `ASCII_LETTER_OFFSET`, the code of `'A'`. -/
def ASCII_LETTER_OFFSET : Nat := 65

/-- The struct `LCD_pin`: the four segment lines of one display position. -/
structure LCD_pin where
  pin1 : Nat
  pin2 : Nat
  pin3 : Nat
  pin4 : Nat
  deriving DecidableEq, Repr

/-- The table `digit[10][4]`: LCD memory map for numeric digits. -/
def digit : List (List Nat) :=
  [ [0x07, 0x09, 0x08, 0x0A],  -- "0"
    [0x00, 0x00, 0x00, 0x0A],  -- "1"
    [0x03, 0x0A, 0x00, 0x0C],  -- "2"
    [0x01, 0x0A, 0x00, 0x0E],  -- "3"
    [0x04, 0x02, 0x00, 0x0E],  -- "4"
    [0x05, 0x0A, 0x01, 0x00],  -- "5"
    [0x07, 0x0A, 0x00, 0x06],  -- "6"
    [0x00, 0x08, 0x00, 0x0A],  -- "7"
    [0x07, 0x0A, 0x00, 0x0E],  -- "8"
    [0x05, 0x0A, 0x00, 0x0E] ] -- "9"

/-- The table `alphabetUpper[26][4]`: LCD memory map for uppercase letters. -/
def alphabetUpper : List (List Nat) :=
  [ [0x06, 0x0A, 0x00, 0x0E],  -- "A"
    [0x01, 0x08, 0x06, 0x0E],  -- "B"
    [0x07, 0x08, 0x00, 0x00],  -- "C"
    [0x01, 0x08, 0x06, 0x0A],  -- "D"
    [0x07, 0x0A, 0x00, 0x00],  -- "E"
    [0x06, 0x0A, 0x00, 0x00],  -- "F"
    [0x07, 0x08, 0x00, 0x06],  -- "G"
    [0x06, 0x02, 0x00, 0x0E],  -- "H"
    [0x01, 0x08, 0x06, 0x00],  -- "I"
    [0x03, 0x00, 0x00, 0x0A],  -- "J"
    [0x06, 0x02, 0x09, 0x00],  -- "K"
    [0x07, 0x00, 0x00, 0x00],  -- "L"
    [0x06, 0x04, 0x08, 0x0A],  -- "M"
    [0x06, 0x04, 0x01, 0x0A],  -- "N"
    [0x07, 0x08, 0x00, 0x0A],  -- "O"
    [0x06, 0x0A, 0x00, 0x0C],  -- "P"
    [0x07, 0x08, 0x01, 0x0A],  -- "Q"
    [0x06, 0x0A, 0x01, 0x0C],  -- "R"
    [0x05, 0x0A, 0x00, 0x06],  -- "S"
    [0x00, 0x08, 0x06, 0x00],  -- "T"
    [0x07, 0x00, 0x00, 0x0A],  -- "U"
    [0x06, 0x01, 0x08, 0x00],  -- "V"
    [0x06, 0x01, 0x01, 0x0A],  -- "W"
    [0x00, 0x05, 0x09, 0x00],  -- "X"
    [0x05, 0x02, 0x00, 0x0E],  -- "Y"
    [0x01, 0x09, 0x08, 0x00] ] -- "Z"

/-- Bounds-checked form of the C expression `t[r][c]`: `none` when the row or
the column lies outside the table. -/
def tableAt? (t : List (List Nat)) (r c : Nat) : Option Nat :=
  match t[r]? with
  | some row => row[c]?
  | none => none

/-- The C expression `t[r][c]` as the renderer evaluates it. C does not check
the indices; here a read outside the table yields 0, and `tableAt?` tells
whether the read was inside. -/
def tableAt (t : List (List Nat)) (r c : Nat) : Nat :=
  (tableAt? t r c).getD 0

/-- Conversion to `uint8_t` (the type of the local `mem`). -/
def u8 (x : Nat) : Nat := x % 2 ^ 8

/-- Conversion to `uint32_t` (the type of the local `memMask`). -/
def u32 (x : Nat) : Nat := x % 2 ^ 32

/-! ## Segment memory -/

/-- The segment memory of the LCD controller: byte index to byte value. -/
abbrev SegMem := Nat → Nat

/-- Modelled from the spec: the vendor read primitive `DL_LCD_getMemory`, whose
definition is in the board-support library and not in the source file. The
segment memory is "an array of bytes", so the read yields the 8-bit content of
the byte at `memIndex`. -/
def DL_LCD_getMemory (lcd : SegMem) (memIndex : Nat) : Nat :=
  lcd memIndex % 256

/-- Modelled from the spec: the vendor write primitive `DL_LCD_writeMemory`,
whose definition is in the board-support library and not in the source file.
It stores the low 8 bits of `mask` in the byte at `memIndex` and leaves every
other byte alone. -/
def DL_LCD_writeMemory (lcd : SegMem) (memIndex : Nat) (mask : Nat) : SegMem :=
  fun i => if i = memIndex then mask % 256 else lcd i

/-! ## The renderer -/

/-- The function `LCD_showChar`, statement by statement. `lcd0` is the segment
memory on entry; `lcd1` .. `lcd4` are the memories after the four
`DL_LCD_writeMemory` calls of the branch taken; the result is the memory on
return. The C condition `pin % 2` is true exactly when `pin % 2 ≠ 0`, and in
`mem | t[r][c] << 4` the shift binds tighter than the bitwise or. -/
def LCD_showChar (lcd0 : SegMem) (ch : Nat) (lcdPinPosition : LCD_pin) : SegMem :=
  let pin1 := lcdPinPosition.pin1
  let pin2 := lcdPinPosition.pin2
  let pin3 := lcdPinPosition.pin3
  let pin4 := lcdPinPosition.pin4
  -- Divide by 2 because mux rate < 5
  let pin1memIdx := pin1 / 2
  let pin2memIdx := pin2 / 2
  let pin3memIdx := pin3 / 2
  let pin4memIdx := pin4 / 2
  if 48 ≤ ch ∧ ch ≤ 57 then
    -- Write digits
    let memMask1 :=
      if pin1 % 2 ≠ 0 then
        let mem := u8 (DL_LCD_getMemory lcd0 pin1memIdx &&& 0x0F)
        u32 (mem ||| (tableAt digit (ch - ASCII_DIGIT_OFFSET) 0 <<< 4))
      else
        let mem := u8 (DL_LCD_getMemory lcd0 pin1memIdx &&& 0xF0)
        u32 (mem ||| tableAt digit (ch - ASCII_DIGIT_OFFSET) 0)
    let lcd1 := DL_LCD_writeMemory lcd0 pin1memIdx memMask1
    let memMask2 :=
      if pin2 % 2 ≠ 0 then
        let mem := u8 (DL_LCD_getMemory lcd1 pin2memIdx &&& 0x0F)
        u32 (mem ||| (tableAt digit (ch - ASCII_DIGIT_OFFSET) 1 <<< 4))
      else
        let mem := u8 (DL_LCD_getMemory lcd1 pin2memIdx &&& 0xF0)
        u32 (mem ||| tableAt digit (ch - ASCII_DIGIT_OFFSET) 1)
    let lcd2 := DL_LCD_writeMemory lcd1 pin2memIdx memMask2
    let memMask3 :=
      if pin3 % 2 ≠ 0 then
        let mem := u8 (DL_LCD_getMemory lcd2 pin3memIdx &&& 0x0F)
        u32 (mem ||| (tableAt digit (ch - ASCII_DIGIT_OFFSET) 2 <<< 4))
      else
        let mem := u8 (DL_LCD_getMemory lcd2 pin3memIdx &&& 0xF0)
        u32 (mem ||| tableAt digit (ch - ASCII_DIGIT_OFFSET) 2)
    let lcd3 := DL_LCD_writeMemory lcd2 pin3memIdx memMask3
    let memMask4 :=
      if pin4 % 2 ≠ 0 then
        let mem := u8 (DL_LCD_getMemory lcd3 pin4memIdx &&& 0x0F)
        u32 (mem ||| (tableAt digit (ch - ASCII_DIGIT_OFFSET) 3 <<< 4))
      else
        let mem := u8 (DL_LCD_getMemory lcd3 pin4memIdx &&& 0xF0)
        u32 (mem ||| tableAt digit (ch - ASCII_DIGIT_OFFSET) 3)
    let lcd4 := DL_LCD_writeMemory lcd3 pin4memIdx memMask4
    lcd4
  else if 65 ≤ ch ∧ ch ≤ 90 then
    -- Write letters
    let memMask1 :=
      if pin1 % 2 ≠ 0 then
        let mem := u8 (DL_LCD_getMemory lcd0 pin1memIdx &&& 0x0F)
        u32 (mem ||| (tableAt alphabetUpper (ch - ASCII_LETTER_OFFSET) 0 <<< 4))
      else
        let mem := u8 (DL_LCD_getMemory lcd0 pin1memIdx &&& 0xF0)
        u32 (mem ||| tableAt alphabetUpper (ch - ASCII_LETTER_OFFSET) 0)
    let lcd1 := DL_LCD_writeMemory lcd0 pin1memIdx memMask1
    let memMask2 :=
      if pin2 % 2 ≠ 0 then
        let mem := u8 (DL_LCD_getMemory lcd1 pin2memIdx &&& 0x0F)
        u32 (mem ||| (tableAt alphabetUpper (ch - ASCII_LETTER_OFFSET) 1 <<< 4))
      else
        let mem := u8 (DL_LCD_getMemory lcd1 pin2memIdx &&& 0xF0)
        u32 (mem ||| tableAt alphabetUpper (ch - ASCII_LETTER_OFFSET) 1)
    let lcd2 := DL_LCD_writeMemory lcd1 pin2memIdx memMask2
    let memMask3 :=
      if pin3 % 2 ≠ 0 then
        let mem := u8 (DL_LCD_getMemory lcd2 pin3memIdx &&& 0x0F)
        u32 (mem ||| (tableAt alphabetUpper (ch - ASCII_LETTER_OFFSET) 2 <<< 4))
      else
        let mem := u8 (DL_LCD_getMemory lcd2 pin3memIdx &&& 0xF0)
        u32 (mem ||| tableAt alphabetUpper (ch - ASCII_LETTER_OFFSET) 2)
    let lcd3 := DL_LCD_writeMemory lcd2 pin3memIdx memMask3
    let memMask4 :=
      if pin4 % 2 ≠ 0 then
        let mem := u8 (DL_LCD_getMemory lcd3 pin4memIdx &&& 0x0F)
        u32 (mem ||| (tableAt alphabetUpper (ch - ASCII_LETTER_OFFSET) 3 <<< 4))
      else
        let mem := u8 (DL_LCD_getMemory lcd3 pin4memIdx &&& 0xF0)
        u32 (mem ||| tableAt alphabetUpper (ch - ASCII_LETTER_OFFSET) 3)
    let lcd4 := DL_LCD_writeMemory lcd3 pin4memIdx memMask4
    lcd4
  else
    lcd0

/-! ## Vocabulary of the specification -/

/-- A character the renderer supports: `'0'..'9'` or `'A'..'Z'`. -/
def Supported (ch : Nat) : Prop :=
  (48 ≤ ch ∧ ch ≤ 57) ∨ (65 ≤ ch ∧ ch ≤ 90)

instance (ch : Nat) : Decidable (Supported ch) := by
  unfold Supported; infer_instance

/-- The glyph table's value number `i` (counted from 0) for the character
`ch`: row `ch - '0'` of `digit` for a digit, row `ch - 'A'` of
`alphabetUpper` otherwise. -/
def glyph (ch : Nat) (i : Nat) : Nat :=
  if 48 ≤ ch ∧ ch ≤ 57 then tableAt digit (ch - ASCII_DIGIT_OFFSET) i
  else tableAt alphabetUpper (ch - ASCII_LETTER_OFFSET) i

/-- Pin number `i` (counted from 0) of a position: `pin1`, `pin2`, `pin3`,
`pin4`. -/
def pinAt (pos : LCD_pin) (i : Fin 4) : Nat :=
  match i with
  | 0 => pos.pin1
  | 1 => pos.pin2
  | 2 => pos.pin3
  | 3 => pos.pin4

/-- Reading the nibble of a pin: the high nibble of byte `pin / 2` when `pin`
is odd, the low nibble when `pin` is even. -/
def pinNibble (lcd : SegMem) (pin : Nat) : Nat :=
  if pin % 2 ≠ 0 then (DL_LCD_getMemory lcd (pin / 2) >>> 4) &&& 0x0F
  else DL_LCD_getMemory lcd (pin / 2) &&& 0x0F

/-- The single-nibble write in the words of the specification: read the byte
at index `p / 2`; if `p` is odd keep its low nibble and or in `g` shifted into
the high nibble, if `p` is even keep its high nibble and or in `g`; the
combined byte replaces the byte at that index. -/
def specWrite (lcd : SegMem) (p g : Nat) : SegMem :=
  fun i =>
    if i = p / 2 then
      (if p % 2 = 1 then (lcd (p / 2) &&& 0x0F) ||| (g <<< 4)
       else (lcd (p / 2) &&& 0xF0) ||| g)
    else lcd i

/-- A memory whose every byte holds `0xA5`. -/
def memA5 : SegMem := fun _ => 0xA5

/-- A memory whose every byte is clear. -/
def memZero : SegMem := fun _ => 0

/-! ## One read-modify-write block -/

/-- One `if (pin % 2) .. else .. DL_LCD_writeMemory` block of `LCD_showChar`,
with `g` standing for the table entry the block reads. -/
def nibbleStep (lcd : SegMem) (pin g : Nat) : SegMem :=
  DL_LCD_writeMemory lcd (pin / 2)
    (if pin % 2 ≠ 0 then
      u32 (u8 (DL_LCD_getMemory lcd (pin / 2) &&& 0x0F) ||| (g <<< 4))
    else
      u32 (u8 (DL_LCD_getMemory lcd (pin / 2) &&& 0xF0) ||| g))

/-- The four blocks of one branch of `LCD_showChar`, in program order. -/
def fourSteps (lcd : SegMem) (pos : LCD_pin) (g1 g2 g3 g4 : Nat) : SegMem :=
  nibbleStep (nibbleStep (nibbleStep (nibbleStep lcd pos.pin1 g1) pos.pin2 g2) pos.pin3 g3)
    pos.pin4 g4

/-! ## The positions set up in `main` -/

/-- Modelled from the spec: the constants `DL_LCD_SEGMENT_LINE_n` come from the
vendor header, which is not among the source files; a pin identifier is "an
integer index into the LCD's physical segment-line numbering", so line `n` is
the integer `n`. -/
def DL_LCD_SEGMENT_LINE (n : Nat) : Nat := n

/-- The global `gLCDPinPosition1` after the assignments in `main`. -/
def gLCDPinPosition1 : LCD_pin :=
  { pin1 := DL_LCD_SEGMENT_LINE 58, pin2 := DL_LCD_SEGMENT_LINE 57,
    pin3 := DL_LCD_SEGMENT_LINE 56, pin4 := DL_LCD_SEGMENT_LINE 55 }

/-- The global `gLCDPinPosition2` after the assignments in `main`. -/
def gLCDPinPosition2 : LCD_pin :=
  { pin1 := DL_LCD_SEGMENT_LINE 36, pin2 := DL_LCD_SEGMENT_LINE 37,
    pin3 := DL_LCD_SEGMENT_LINE 38, pin4 := DL_LCD_SEGMENT_LINE 18 }

/-- The global `gLCDPinPosition3` after the assignments in `main`. -/
def gLCDPinPosition3 : LCD_pin :=
  { pin1 := DL_LCD_SEGMENT_LINE 19, pin2 := DL_LCD_SEGMENT_LINE 20,
    pin3 := DL_LCD_SEGMENT_LINE 23, pin4 := DL_LCD_SEGMENT_LINE 39 }

/-- The global `gLCDPinPosition4` after the assignments in `main`. -/
def gLCDPinPosition4 : LCD_pin :=
  { pin1 := DL_LCD_SEGMENT_LINE 40, pin2 := DL_LCD_SEGMENT_LINE 41,
    pin3 := DL_LCD_SEGMENT_LINE 54, pin4 := DL_LCD_SEGMENT_LINE 53 }

/-- The global `gLCDPinPosition5` after the assignments in `main`. -/
def gLCDPinPosition5 : LCD_pin :=
  { pin1 := DL_LCD_SEGMENT_LINE 52, pin2 := DL_LCD_SEGMENT_LINE 51,
    pin3 := DL_LCD_SEGMENT_LINE 50, pin4 := DL_LCD_SEGMENT_LINE 49 }

/-- The global `gLCDPinPosition6` after the assignments in `main`. -/
def gLCDPinPosition6 : LCD_pin :=
  { pin1 := DL_LCD_SEGMENT_LINE 48, pin2 := DL_LCD_SEGMENT_LINE 47,
    pin3 := DL_LCD_SEGMENT_LINE 46, pin4 := DL_LCD_SEGMENT_LINE 45 }

/-- Position number `a` (counted from 0) of the six positions of `main`. -/
def mainPosition (a : Fin 6) : LCD_pin :=
  match a with
  | 0 => gLCDPinPosition1
  | 1 => gLCDPinPosition2
  | 2 => gLCDPinPosition3
  | 3 => gLCDPinPosition4
  | 4 => gLCDPinPosition5
  | 5 => gLCDPinPosition6

/-- The 24 pin identifiers of the six positions, in the order of the
assignments in `main`. -/
def mainPins : List Nat :=
  (List.finRange 6).flatMap fun a => (List.finRange 4).map fun i => pinAt (mainPosition a) i

/-- The list of the four pins of a position. -/
def pinsOf (pos : LCD_pin) : List Nat := [pos.pin1, pos.pin2, pos.pin3, pos.pin4]

/-- The four nibbles of a position as read from a memory, in pin order. -/
def readPosition (lcd : SegMem) (pos : LCD_pin) : List Nat :=
  (pinsOf pos).map (pinNibble lcd)

/-- The four glyph values of a character, in pin order. -/
def glyphRow (ch : Nat) : List Nat := [glyph ch 0, glyph ch 1, glyph ch 2, glyph ch 3]

/-- The 36 supported character codes: `'0'..'9'` then `'A'..'Z'`. -/
def supportedChars : List Nat :=
  (List.range 10).map (fun d => d + 48) ++ (List.range 26).map (fun l => l + 65)

/-! ## Byte-level arithmetic -/

set_option maxRecDepth 100000 in
/-- Writing a 4-bit value into the high nibble of a byte. -/
theorem high_write_byte : ∀ b < 256, ∀ g < 16,
    ((b &&& 0x0F) ||| (g <<< 4)) < 256 ∧
    (((b &&& 0x0F) ||| (g <<< 4)) >>> 4) &&& 0x0F = g ∧
    ((b &&& 0x0F) ||| (g <<< 4)) &&& 0x0F = b &&& 0x0F ∧
    ((b &&& 0x0F) ||| (g <<< 4)) >>> 4 = g := by decide!

set_option maxRecDepth 100000 in
/-- Writing a 4-bit value into the low nibble of a byte. -/
theorem low_write_byte : ∀ b < 256, ∀ g < 16,
    ((b &&& 0xF0) ||| g) < 256 ∧
    ((b &&& 0xF0) ||| g) &&& 0x0F = g ∧
    (((b &&& 0xF0) ||| g) >>> 4) &&& 0x0F = (b >>> 4) &&& 0x0F ∧
    ((b &&& 0xF0) ||| g) &&& 0xF0 = b &&& 0xF0 ∧
    ((b &&& 0xF0) ||| g) >>> 4 = b >>> 4 := by decide!

theorem mod256_and_0F (x : Nat) : (x % 256) &&& 0x0F = x &&& 0x0F := by
  have h := Nat.and_pow_two_sub_one_eq_mod x 8
  norm_num at h
  rw [← h, Nat.land_assoc]
  rfl

theorem mod256_and_F0 (x : Nat) : (x % 256) &&& 0xF0 = x &&& 0xF0 := by
  have h := Nat.and_pow_two_sub_one_eq_mod x 8
  norm_num at h
  rw [← h, Nat.land_assoc]
  rfl

/-! ## Decomposition of the renderer into its blocks -/

theorem LCD_showChar_digit (lcd : SegMem) (ch : Nat) (pos : LCD_pin)
    (h : 48 ≤ ch ∧ ch ≤ 57) :
    LCD_showChar lcd ch pos =
      fourSteps lcd pos (tableAt digit (ch - ASCII_DIGIT_OFFSET) 0)
        (tableAt digit (ch - ASCII_DIGIT_OFFSET) 1)
        (tableAt digit (ch - ASCII_DIGIT_OFFSET) 2)
        (tableAt digit (ch - ASCII_DIGIT_OFFSET) 3) := by
  unfold LCD_showChar
  simp only [if_pos h]
  rfl

theorem LCD_showChar_letter (lcd : SegMem) (ch : Nat) (pos : LCD_pin)
    (h : 65 ≤ ch ∧ ch ≤ 90) :
    LCD_showChar lcd ch pos =
      fourSteps lcd pos (tableAt alphabetUpper (ch - ASCII_LETTER_OFFSET) 0)
        (tableAt alphabetUpper (ch - ASCII_LETTER_OFFSET) 1)
        (tableAt alphabetUpper (ch - ASCII_LETTER_OFFSET) 2)
        (tableAt alphabetUpper (ch - ASCII_LETTER_OFFSET) 3) := by
  have h0 : ¬ (48 ≤ ch ∧ ch ≤ 57) := by omega
  unfold LCD_showChar
  simp only [if_neg h0, if_pos h]
  rfl

theorem LCD_showChar_other (lcd : SegMem) (ch : Nat) (pos : LCD_pin)
    (h : ¬ Supported ch) : LCD_showChar lcd ch pos = lcd := by
  have h0 : ¬ (48 ≤ ch ∧ ch ≤ 57) := fun h1 => h (Or.inl h1)
  have h1 : ¬ (65 ≤ ch ∧ ch ≤ 90) := fun h2 => h (Or.inr h2)
  unfold LCD_showChar
  simp only [if_neg h0, if_neg h1]

theorem LCD_showChar_supported (lcd : SegMem) (ch : Nat) (pos : LCD_pin)
    (h : Supported ch) :
    LCD_showChar lcd ch pos =
      fourSteps lcd pos (glyph ch 0) (glyph ch 1) (glyph ch 2) (glyph ch 3) := by
  by_cases hd : 48 ≤ ch ∧ ch ≤ 57
  · rw [LCD_showChar_digit lcd ch pos hd]
    simp only [glyph, if_pos hd]
  · have hl : 65 ≤ ch ∧ ch ≤ 90 := by
      rcases h with h | h
      · exact absurd h hd
      · exact h
    rw [LCD_showChar_letter lcd ch pos hl]
    simp only [glyph, if_neg hd]

/-- The byte a block leaves at the index it targets, and nothing else
changes; `g` is a 4-bit value. -/
theorem nibbleStep_apply (lcd : SegMem) (pin g : Nat) (hg : g < 16) (k : Nat) :
    nibbleStep lcd pin g k =
      if k = pin / 2 then
        (if pin % 2 ≠ 0 then (lcd (pin / 2) % 256 &&& 0x0F) ||| (g <<< 4)
         else (lcd (pin / 2) % 256 &&& 0xF0) ||| g)
      else lcd k := by
  have hb : lcd (pin / 2) % 256 < 256 := Nat.mod_lt _ (by norm_num)
  have hH := high_write_byte _ hb g hg
  have hL := low_write_byte _ hb g hg
  have h0F : lcd (pin / 2) % 256 &&& 0x0F < 256 :=
    lt_of_le_of_lt Nat.and_le_right (by norm_num)
  have hF0 : lcd (pin / 2) % 256 &&& 0xF0 < 256 :=
    lt_of_le_of_lt Nat.and_le_right (by norm_num)
  unfold nibbleStep DL_LCD_writeMemory DL_LCD_getMemory u8 u32
  by_cases hk : k = pin / 2
  · by_cases hp : pin % 2 ≠ 0
    · simp only [if_pos hk, if_pos hp]
      rw [Nat.mod_eq_of_lt (show lcd (pin / 2) % 256 &&& 0x0F < 2 ^ 8 from h0F),
        Nat.mod_eq_of_lt (lt_trans hH.1 (by norm_num)), Nat.mod_eq_of_lt hH.1]
    · simp only [if_pos hk, if_neg hp]
      rw [Nat.mod_eq_of_lt (show lcd (pin / 2) % 256 &&& 0xF0 < 2 ^ 8 from hF0),
        Nat.mod_eq_of_lt (lt_trans hL.1 (by norm_num)), Nat.mod_eq_of_lt hL.1]
  · simp only [if_neg hk]

/-- After a block, the nibble of its pin holds the value written. -/
theorem pinNibble_nibbleStep_same (lcd : SegMem) (pin g : Nat) (hg : g < 16) :
    pinNibble (nibbleStep lcd pin g) pin = g := by
  have hb : lcd (pin / 2) % 256 < 256 := Nat.mod_lt _ (by norm_num)
  have hH := high_write_byte _ hb g hg
  have hL := low_write_byte _ hb g hg
  unfold pinNibble DL_LCD_getMemory
  rw [nibbleStep_apply lcd pin g hg (pin / 2)]
  by_cases hp : pin % 2 ≠ 0
  · simp only [if_pos hp, if_true]
    rw [Nat.mod_eq_of_lt hH.1]
    exact hH.2.1
  · simp only [if_neg hp, if_true]
    rw [Nat.mod_eq_of_lt hL.1]
    exact hL.2.1

/-- A block leaves the nibble of every other pin as it was. -/
theorem pinNibble_nibbleStep_other (lcd : SegMem) (pin g : Nat) (hg : g < 16)
    (q : Nat) (hq : q ≠ pin) :
    pinNibble (nibbleStep lcd pin g) q = pinNibble lcd q := by
  have hb : lcd (pin / 2) % 256 < 256 := Nat.mod_lt _ (by norm_num)
  have hH := high_write_byte _ hb g hg
  have hL := low_write_byte _ hb g hg
  unfold pinNibble DL_LCD_getMemory
  rw [nibbleStep_apply lcd pin g hg (q / 2)]
  by_cases hk : q / 2 = pin / 2
  · by_cases hp : pin % 2 ≠ 0
    · have hqe : ¬ (q % 2 ≠ 0) := by omega
      simp only [if_pos hk, if_pos hp, if_neg hqe]
      rw [Nat.mod_eq_of_lt hH.1, hk]
      exact hH.2.2.1
    · have hqo : q % 2 ≠ 0 := by omega
      simp only [if_pos hk, if_neg hp, if_pos hqo]
      rw [Nat.mod_eq_of_lt hL.1, hk]
      exact hL.2.2.1
  · simp only [if_neg hk]

/-- A block is the single-nibble write of the specification. -/
theorem nibbleStep_eq_specWrite (lcd : SegMem) (pin g : Nat) (hg : g < 16) :
    nibbleStep lcd pin g = specWrite lcd pin g := by
  funext k
  rw [nibbleStep_apply lcd pin g hg k]
  unfold specWrite
  by_cases hk : k = pin / 2
  · by_cases hp : pin % 2 ≠ 0
    · have hp1 : pin % 2 = 1 := by omega
      simp only [if_pos hk, if_pos hp, if_pos hp1, mod256_and_0F]
    · have hp1 : ¬ (pin % 2 = 1) := by omega
      simp only [if_pos hk, if_neg hp, if_neg hp1, mod256_and_F0]
  · simp only [if_neg hk]

/-! ## Facts about the tables -/

theorem tableAt_lt_of_forall (t : List (List Nat))
    (h : ∀ row ∈ t, ∀ v ∈ row, v < 16) (r c : Nat) : tableAt t r c < 16 := by
  unfold tableAt tableAt?
  cases hr : t[r]? with
  | none => simp
  | some row =>
    cases hc : row[c]? with
    | none => simp [hc]
    | some v =>
      simp only [hc, Option.getD_some]
      exact h row (List.getElem?_mem hr) v (List.getElem?_mem hc)

theorem digit_entries_lt : ∀ row ∈ digit, ∀ v ∈ row, v < 16 := by decide

theorem alphabetUpper_entries_lt : ∀ row ∈ alphabetUpper, ∀ v ∈ row, v < 16 := by
  decide

theorem glyph_lt (ch i : Nat) : glyph ch i < 16 := by
  unfold glyph
  split
  · exact tableAt_lt_of_forall digit digit_entries_lt _ _
  · exact tableAt_lt_of_forall alphabetUpper alphabetUpper_entries_lt _ _

/-! ## The four blocks together -/

/-- Bytes at an index none of the four pins maps to are untouched. -/
theorem fourSteps_byte_other (lcd : SegMem) (pos : LCD_pin) (g : Nat → Nat)
    (hg : ∀ i, g i < 16) (k : Nat)
    (h1 : k ≠ pos.pin1 / 2) (h2 : k ≠ pos.pin2 / 2) (h3 : k ≠ pos.pin3 / 2)
    (h4 : k ≠ pos.pin4 / 2) :
    fourSteps lcd pos (g 0) (g 1) (g 2) (g 3) k = lcd k := by
  unfold fourSteps
  rw [nibbleStep_apply _ _ _ (hg 3), if_neg h4, nibbleStep_apply _ _ _ (hg 2), if_neg h3,
    nibbleStep_apply _ _ _ (hg 1), if_neg h2, nibbleStep_apply _ _ _ (hg 0), if_neg h1]

/-- Nibbles of pins that are not among the four are untouched. -/
theorem fourSteps_nibble_other (lcd : SegMem) (pos : LCD_pin) (g : Nat → Nat)
    (hg : ∀ i, g i < 16) (q : Nat)
    (h1 : q ≠ pos.pin1) (h2 : q ≠ pos.pin2) (h3 : q ≠ pos.pin3) (h4 : q ≠ pos.pin4) :
    pinNibble (fourSteps lcd pos (g 0) (g 1) (g 2) (g 3)) q = pinNibble lcd q := by
  unfold fourSteps
  rw [pinNibble_nibbleStep_other _ _ _ (hg 3) q h4,
    pinNibble_nibbleStep_other _ _ _ (hg 2) q h3,
    pinNibble_nibbleStep_other _ _ _ (hg 1) q h2,
    pinNibble_nibbleStep_other _ _ _ (hg 0) q h1]

/-- The nibble of a pin reads the value of the last block that targets it. -/
theorem fourSteps_readback (lcd : SegMem) (pos : LCD_pin) (g : Nat → Nat)
    (hg : ∀ i, g i < 16) (i : Fin 4)
    (hlast : ∀ k : Fin 4, i < k → pinAt pos k ≠ pinAt pos i) :
    pinNibble (fourSteps lcd pos (g 0) (g 1) (g 2) (g 3)) (pinAt pos i) = g i.val := by
  unfold fourSteps
  fin_cases i
  · have h2 : pos.pin1 ≠ pos.pin2 := fun e => hlast 1 (by decide) e.symm
    have h3 : pos.pin1 ≠ pos.pin3 := fun e => hlast 2 (by decide) e.symm
    have h4 : pos.pin1 ≠ pos.pin4 := fun e => hlast 3 (by decide) e.symm
    show pinNibble _ pos.pin1 = g 0
    rw [pinNibble_nibbleStep_other _ _ _ (hg 3) _ h4,
      pinNibble_nibbleStep_other _ _ _ (hg 2) _ h3,
      pinNibble_nibbleStep_other _ _ _ (hg 1) _ h2,
      pinNibble_nibbleStep_same _ _ _ (hg 0)]
  · have h3 : pos.pin2 ≠ pos.pin3 := fun e => hlast 2 (by decide) e.symm
    have h4 : pos.pin2 ≠ pos.pin4 := fun e => hlast 3 (by decide) e.symm
    show pinNibble _ pos.pin2 = g 1
    rw [pinNibble_nibbleStep_other _ _ _ (hg 3) _ h4,
      pinNibble_nibbleStep_other _ _ _ (hg 2) _ h3,
      pinNibble_nibbleStep_same _ _ _ (hg 1)]
  · have h4 : pos.pin3 ≠ pos.pin4 := fun e => hlast 3 (by decide) e.symm
    show pinNibble _ pos.pin3 = g 2
    rw [pinNibble_nibbleStep_other _ _ _ (hg 3) _ h4,
      pinNibble_nibbleStep_same _ _ _ (hg 2)]
  · show pinNibble _ pos.pin4 = g 3
    rw [pinNibble_nibbleStep_same _ _ _ (hg 3)]

/-- For a supported character the renderer is four single-nibble writes of
the specification, in pin order. -/
theorem LCD_showChar_eq_specWrites (lcd : SegMem) (ch : Nat) (pos : LCD_pin)
    (hch : Supported ch) :
    LCD_showChar lcd ch pos =
      specWrite
        (specWrite
          (specWrite (specWrite lcd pos.pin1 (glyph ch 0)) pos.pin2 (glyph ch 1))
          pos.pin3 (glyph ch 2))
        pos.pin4 (glyph ch 3) := by
  rw [LCD_showChar_supported lcd ch pos hch]
  unfold fourSteps
  rw [nibbleStep_eq_specWrite _ _ _ (glyph_lt ch 0), nibbleStep_eq_specWrite _ _ _ (glyph_lt ch 1),
    nibbleStep_eq_specWrite _ _ _ (glyph_lt ch 2), nibbleStep_eq_specWrite _ _ _ (glyph_lt ch 3)]

/-! ## Properties of the renderer -/

/-- C1 (as stated): reading back the nibble of every pin yields the glyph value
of that pin, for every position. This fails when a pin identifier occurs twice:
rendering `'0'` at pins `{0, 2, 4, 0}` leaves `0xA`, the fourth glyph value, in
the nibble of the first pin, whose glyph value is `0x7`. -/
theorem C1_readback_fails_on_repeated_pin :
    ¬ (∀ (lcd : SegMem) (ch : Nat) (pos : LCD_pin), Supported ch →
        ∀ i : Fin 4, pinNibble (LCD_showChar lcd ch pos) (pinAt pos i) = glyph ch i.val) := by
  intro h
  have h0 := h memZero 48 ⟨0, 2, 4, 0⟩ (by decide) 0
  revert h0
  decide

/-- C1 (amended): for every supported character, memory and position, after
`LCD_showChar` the nibble of pin number `i` reads the glyph value number `i`,
provided no later pin of the position has the same identifier. -/
theorem C1_readback_unless_overwritten (lcd : SegMem) (ch : Nat) (pos : LCD_pin)
    (hch : Supported ch) (i : Fin 4)
    (hlast : ∀ k : Fin 4, i < k → pinAt pos k ≠ pinAt pos i) :
    pinNibble (LCD_showChar lcd ch pos) (pinAt pos i) = glyph ch i.val := by
  rw [LCD_showChar_supported lcd ch pos hch]
  exact fourSteps_readback lcd pos (glyph ch) (glyph_lt ch) i hlast

/-- Witness for C1 (amended): `'0'` at pins `{0, 2, 4, 0}`; the second pin is
not repeated later and reads `0x9`. -/
theorem C1_readback_unless_overwritten_witness :
    Supported 48 ∧ (∀ k : Fin 4, (1 : Fin 4) < k → pinAt ⟨0, 2, 4, 0⟩ k ≠ pinAt ⟨0, 2, 4, 0⟩ 1) ∧
      pinNibble (LCD_showChar memA5 48 ⟨0, 2, 4, 0⟩) (pinAt ⟨0, 2, 4, 0⟩ 1) = 9 :=
  ⟨by decide, by decide,
    C1_readback_unless_overwritten memA5 48 ⟨0, 2, 4, 0⟩ (by decide) 1 (by decide)⟩

/-- C2: `LCD_showChar` changes nothing but the nibbles of the four pins of the
position. For every character, memory and position, the nibble of every pin
that is not one of the four keeps its value (in particular the other nibble of
a byte that was written), and every byte whose index is not `pin / 2` for one
of the four pins is unchanged. -/
theorem C2_frame (lcd : SegMem) (ch : Nat) (pos : LCD_pin) :
    (∀ q : Nat, (∀ i : Fin 4, pinAt pos i ≠ q) →
        pinNibble (LCD_showChar lcd ch pos) q = pinNibble lcd q) ∧
    (∀ k : Nat, (∀ i : Fin 4, pinAt pos i / 2 ≠ k) →
        LCD_showChar lcd ch pos k = lcd k) := by
  by_cases hch : Supported ch
  · rw [LCD_showChar_supported lcd ch pos hch]
    constructor
    · intro q hq
      exact fourSteps_nibble_other lcd pos (glyph ch) (glyph_lt ch) q
        (fun e => hq 0 e.symm) (fun e => hq 1 e.symm) (fun e => hq 2 e.symm)
        (fun e => hq 3 e.symm)
    · intro k hk
      exact fourSteps_byte_other lcd pos (glyph ch) (glyph_lt ch) k
        (fun e => hk 0 e.symm) (fun e => hk 1 e.symm) (fun e => hk 2 e.symm)
        (fun e => hk 3 e.symm)
  · rw [LCD_showChar_other lcd ch pos hch]
    exact ⟨fun _ _ => rfl, fun _ _ => rfl⟩

/-- Witness for C2: every byte holds `0xA5` and `'0'` is rendered at the even
pins `{2, 4, 6, 8}`. Pin 3 shares byte 1 with pin 2 and is not in the
position: its nibble, the high nibble of byte 1, stays `0xA`; byte 0 is not
targeted and stays `0xA5`. -/
theorem C2_frame_witness :
    (∀ i : Fin 4, pinAt ⟨2, 4, 6, 8⟩ i ≠ 3) ∧
    (∀ i : Fin 4, pinAt ⟨2, 4, 6, 8⟩ i / 2 ≠ 0) ∧
    pinNibble (LCD_showChar memA5 48 ⟨2, 4, 6, 8⟩) 3 = 0xA ∧
    LCD_showChar memA5 48 ⟨2, 4, 6, 8⟩ 0 = 0xA5 :=
  ⟨by decide, by decide,
    (C2_frame memA5 48 ⟨2, 4, 6, 8⟩).1 3 (by decide),
    (C2_frame memA5 48 ⟨2, 4, 6, 8⟩).2 0 (by decide)⟩

/-- C3: an unsupported character is a no-op. For every character that is
neither in `'0'..'9'` nor in `'A'..'Z'`, every position and every memory, the
memory after `LCD_showChar` is the memory before it. -/
theorem C3_unsupported_is_noop (lcd : SegMem) (ch : Nat) (pos : LCD_pin)
    (hch : ¬ ((48 ≤ ch ∧ ch ≤ 57) ∨ (65 ≤ ch ∧ ch ≤ 90))) :
    LCD_showChar lcd ch pos = lcd :=
  LCD_showChar_other lcd ch pos hch

/-- Witness for C3: `'!'` (code 33) and `'a'` (code 97) at pins
`{1, 2, 3, 4}`. -/
theorem C3_unsupported_is_noop_witness :
    ¬ ((48 ≤ 33 ∧ 33 ≤ 57) ∨ (65 ≤ 33 ∧ 33 ≤ 90)) ∧
    LCD_showChar memA5 33 ⟨1, 2, 3, 4⟩ = memA5 :=
  ⟨by decide, C3_unsupported_is_noop memA5 33 ⟨1, 2, 3, 4⟩ (by decide)⟩

/-- C4: `LCD_showChar` is the sequential composition of four single-nibble
writes. For a supported character with glyph values `g1 .. g4` and pins
`pin1 .. pin4`, the memory on return is `write(pin4, g4)` after
`write(pin3, g3)` after `write(pin2, g2)` after `write(pin1, g1)`, where
`write` is `specWrite`, the write in the words of the specification, each step
applied to the memory the previous step left. -/
theorem C4_showChar_is_four_spec_writes (lcd : SegMem) (ch : Nat) (pos : LCD_pin)
    (hch : Supported ch) :
    LCD_showChar lcd ch pos =
      specWrite
        (specWrite
          (specWrite (specWrite lcd pos.pin1 (glyph ch 0)) pos.pin2 (glyph ch 1))
          pos.pin3 (glyph ch 2))
        pos.pin4 (glyph ch 3) :=
  LCD_showChar_eq_specWrites lcd ch pos hch

/-- Witness for C4: `'A'` (code 65) at pins `{5, 6, 7, 8}` on a memory of
`0xA5` bytes. -/
theorem C4_showChar_is_four_spec_writes_witness :
    Supported 65 ∧
    LCD_showChar memA5 65 ⟨5, 6, 7, 8⟩ =
      specWrite (specWrite (specWrite (specWrite memA5 5 0x06) 6 0x0A) 7 0x00) 8 0x0E :=
  ⟨by decide, C4_showChar_is_four_spec_writes memA5 65 ⟨5, 6, 7, 8⟩ (by decide)⟩

/-- C5: character resolution stays inside the tables. For `ch` in `'0'..'9'`
the row index `ch - 48` is less than 10, row `ch - 48` of `digit` exists and
has exactly the four columns 0..3, and `LCD_showChar` writes the four values of
that row; for `ch` in `'A'..'Z'` the same holds with `ch - 65`, 26 and
`alphabetUpper`. -/
theorem C5_table_lookup_in_bounds (lcd : SegMem) (ch : Nat) (pos : LCD_pin) :
    (48 ≤ ch ∧ ch ≤ 57 →
      ch - ASCII_DIGIT_OFFSET = ch - 48 ∧ ch - ASCII_DIGIT_OFFSET < 10 ∧
      digit.length = 10 ∧
      ∃ g1 g2 g3 g4, digit[ch - ASCII_DIGIT_OFFSET]? = some [g1, g2, g3, g4] ∧
        (∀ c : Fin 4, tableAt? digit (ch - ASCII_DIGIT_OFFSET) c = [g1, g2, g3, g4][c.val]?) ∧
        LCD_showChar lcd ch pos = fourSteps lcd pos g1 g2 g3 g4) ∧
    (65 ≤ ch ∧ ch ≤ 90 →
      ch - ASCII_LETTER_OFFSET = ch - 65 ∧ ch - ASCII_LETTER_OFFSET < 26 ∧
      alphabetUpper.length = 26 ∧
      ∃ g1 g2 g3 g4, alphabetUpper[ch - ASCII_LETTER_OFFSET]? = some [g1, g2, g3, g4] ∧
        (∀ c : Fin 4,
          tableAt? alphabetUpper (ch - ASCII_LETTER_OFFSET) c = [g1, g2, g3, g4][c.val]?) ∧
        LCD_showChar lcd ch pos = fourSteps lcd pos g1 g2 g3 g4) := by
  constructor
  · rintro ⟨h1, h2⟩
    refine ⟨rfl, by unfold ASCII_DIGIT_OFFSET; omega, rfl, ?_⟩
    rw [LCD_showChar_digit lcd ch pos ⟨h1, h2⟩]
    interval_cases ch <;> exact ⟨_, _, _, _, rfl, fun _ => rfl, rfl⟩
  · rintro ⟨h1, h2⟩
    refine ⟨rfl, by unfold ASCII_LETTER_OFFSET; omega, rfl, ?_⟩
    rw [LCD_showChar_letter lcd ch pos ⟨h1, h2⟩]
    interval_cases ch <;> exact ⟨_, _, _, _, rfl, fun _ => rfl, rfl⟩

/-- Witness for C5: `'7'` (code 55) resolves to row 7 of `digit` and `'Z'`
(code 90) to row 25 of `alphabetUpper`. -/
theorem C5_table_lookup_in_bounds_witness :
    (48 ≤ 55 ∧ 55 ≤ 57) ∧ (65 ≤ 90 ∧ 90 ≤ 90) ∧
    55 - ASCII_DIGIT_OFFSET < 10 ∧ 90 - ASCII_LETTER_OFFSET < 26 :=
  ⟨by decide, by decide,
    ((C5_table_lookup_in_bounds memZero 55 ⟨1, 2, 3, 4⟩).1 (by decide)).2.1,
    ((C5_table_lookup_in_bounds memZero 90 ⟨1, 2, 3, 4⟩).2 (by decide)).2.1⟩

/-- Or-ing a 4-bit value into a byte whose low nibble was cleared does not
reach the high nibble. -/
theorem or_nibble_keeps_high (x g : Nat) (hg : g < 16) :
    ((x &&& 0xF0) ||| g) &&& 0xF0 = x &&& 0xF0 := by
  have hb : x % 256 < 256 := Nat.mod_lt _ (by norm_num)
  have h := (low_write_byte _ hb g hg).2.2.2.1
  rwa [mod256_and_F0] at h

/-- C6: every entry of the glyph tables is a 4-bit value. `digit` has 10 rows
and `alphabetUpper` 26 (36 characters); each of the four entries of each row
exists and is at most 15; hence or-ing an entry into a byte whose low nibble
was cleared leaves the high nibble as it was, and an entry shifted left by 4
is less than 256. -/
theorem C6_glyph_entries_are_nibbles :
    digit.length = 10 ∧ alphabetUpper.length = 26 ∧
    digit.length + alphabetUpper.length = 36 ∧
    (∀ (r : Fin 10) (c : Fin 4),
      tableAt? digit r c = some (tableAt digit r c) ∧ tableAt digit r c ≤ 15 ∧
      tableAt digit r c <<< 4 < 256 ∧
      ∀ b : Nat, ((b &&& 0xF0) ||| tableAt digit r c) &&& 0xF0 = b &&& 0xF0) ∧
    (∀ (r : Fin 26) (c : Fin 4),
      tableAt? alphabetUpper r c = some (tableAt alphabetUpper r c) ∧
      tableAt alphabetUpper r c ≤ 15 ∧
      tableAt alphabetUpper r c <<< 4 < 256 ∧
      ∀ b : Nat, ((b &&& 0xF0) ||| tableAt alphabetUpper r c) &&& 0xF0 = b &&& 0xF0) := by
  have hd : ∀ (r : Fin 10) (c : Fin 4),
      tableAt? digit r c = some (tableAt digit r c) ∧ tableAt digit r c ≤ 15 ∧
      tableAt digit r c <<< 4 < 256 := by decide
  have ha : ∀ (r : Fin 26) (c : Fin 4),
      tableAt? alphabetUpper r c = some (tableAt alphabetUpper r c) ∧
      tableAt alphabetUpper r c ≤ 15 ∧ tableAt alphabetUpper r c <<< 4 < 256 := by decide
  refine ⟨rfl, rfl, rfl, fun r c => ?_, fun r c => ?_⟩
  · exact ⟨(hd r c).1, (hd r c).2.1, (hd r c).2.2, fun b =>
      or_nibble_keeps_high b _ (Nat.lt_succ_of_le (hd r c).2.1)⟩
  · exact ⟨(ha r c).1, (ha r c).2.1, (ha r c).2.2, fun b =>
      or_nibble_keeps_high b _ (Nat.lt_succ_of_le (ha r c).2.1)⟩

/-- The byte left by a low-nibble write followed by a high-nibble write. -/
theorem low_then_high_byte (x g h : Nat) (hg : g < 16) :
    ((((x &&& 0xF0) ||| g) &&& 0x0F) ||| (h <<< 4)) = g ||| (h <<< 4) := by
  have hb : x % 256 < 256 := Nat.mod_lt _ (by norm_num)
  have hL := (low_write_byte _ hb g hg).2.1
  rw [mod256_and_F0] at hL
  rw [hL]

/-- C7: the example `'0'` at pins `{1, 2, 3, 4}`, for every initial memory. The
nibbles of pins 1, 2, 3, 4 read `0x7`, `0x9`, `0x8`, `0xA`; byte 0 is its old
low nibble with `0x7` in the high nibble (the nibble of pin 0 is kept), byte 1
is `0x89`, and byte 2 is its old high nibble with `0xA` in the low nibble (the
nibble of pin 5 is kept). -/
theorem C7_example_zero (lcd : SegMem) :
    pinNibble (LCD_showChar lcd 48 ⟨1, 2, 3, 4⟩) 1 = 0x7 ∧
    pinNibble (LCD_showChar lcd 48 ⟨1, 2, 3, 4⟩) 2 = 0x9 ∧
    pinNibble (LCD_showChar lcd 48 ⟨1, 2, 3, 4⟩) 3 = 0x8 ∧
    pinNibble (LCD_showChar lcd 48 ⟨1, 2, 3, 4⟩) 4 = 0xA ∧
    LCD_showChar lcd 48 ⟨1, 2, 3, 4⟩ 0 = (lcd 0 &&& 0x0F) ||| 0x70 ∧
    pinNibble (LCD_showChar lcd 48 ⟨1, 2, 3, 4⟩) 0 = pinNibble lcd 0 ∧
    LCD_showChar lcd 48 ⟨1, 2, 3, 4⟩ 1 = 0x89 ∧
    LCD_showChar lcd 48 ⟨1, 2, 3, 4⟩ 2 = (lcd 2 &&& 0xF0) ||| 0x0A ∧
    pinNibble (LCD_showChar lcd 48 ⟨1, 2, 3, 4⟩) 5 = pinNibble lcd 5 := by
  have hs : Supported 48 := by decide
  have hr := fun i h =>
    fourSteps_readback lcd ⟨1, 2, 3, 4⟩ (glyph 48) (glyph_lt 48) i h
  have hn := fourSteps_nibble_other lcd ⟨1, 2, 3, 4⟩ (glyph 48) (glyph_lt 48)
  have hw := LCD_showChar_eq_specWrites lcd 48 ⟨1, 2, 3, 4⟩ hs
  rw [← LCD_showChar_supported lcd 48 ⟨1, 2, 3, 4⟩ hs] at hr hn
  refine ⟨hr 0 (by decide), hr 1 (by decide), hr 2 (by decide), hr 3 (by decide), ?_,
    hn 0 (by decide) (by decide) (by decide) (by decide), ?_, ?_,
    hn 5 (by decide) (by decide) (by decide) (by decide)⟩
  · rw [hw]
    show (if 0 = 4 / 2 then _ else _) = _
    rfl
  · rw [hw]
    exact low_then_high_byte (lcd 1) 9 8 (by decide)
  · rw [hw]
    rfl

/-- C8: the example `'A'` at pins `{5, 6, 7, 8}`, for every initial memory. The
nibbles of pins 5, 6, 7, 8 read `0x6`, `0xA`, `0x0`, `0xE`; byte 2 is its old
low nibble with `0x6` in the high nibble (the nibble of pin 4 is kept), byte 3
is `0x0A`, and byte 4 is its old high nibble with `0xE` in the low nibble (the
nibble of pin 9 is kept). -/
theorem C8_example_letter_A (lcd : SegMem) :
    pinNibble (LCD_showChar lcd 65 ⟨5, 6, 7, 8⟩) 5 = 0x6 ∧
    pinNibble (LCD_showChar lcd 65 ⟨5, 6, 7, 8⟩) 6 = 0xA ∧
    pinNibble (LCD_showChar lcd 65 ⟨5, 6, 7, 8⟩) 7 = 0x0 ∧
    pinNibble (LCD_showChar lcd 65 ⟨5, 6, 7, 8⟩) 8 = 0xE ∧
    LCD_showChar lcd 65 ⟨5, 6, 7, 8⟩ 2 = (lcd 2 &&& 0x0F) ||| 0x60 ∧
    pinNibble (LCD_showChar lcd 65 ⟨5, 6, 7, 8⟩) 4 = pinNibble lcd 4 ∧
    LCD_showChar lcd 65 ⟨5, 6, 7, 8⟩ 3 = 0x0A ∧
    LCD_showChar lcd 65 ⟨5, 6, 7, 8⟩ 4 = (lcd 4 &&& 0xF0) ||| 0x0E ∧
    pinNibble (LCD_showChar lcd 65 ⟨5, 6, 7, 8⟩) 9 = pinNibble lcd 9 := by
  have hs : Supported 65 := by decide
  have hr := fun i h =>
    fourSteps_readback lcd ⟨5, 6, 7, 8⟩ (glyph 65) (glyph_lt 65) i h
  have hn := fourSteps_nibble_other lcd ⟨5, 6, 7, 8⟩ (glyph 65) (glyph_lt 65)
  have hw := LCD_showChar_eq_specWrites lcd 65 ⟨5, 6, 7, 8⟩ hs
  rw [← LCD_showChar_supported lcd 65 ⟨5, 6, 7, 8⟩ hs] at hr hn
  refine ⟨hr 0 (by decide), hr 1 (by decide), hr 2 (by decide), hr 3 (by decide), ?_,
    hn 4 (by decide) (by decide) (by decide) (by decide), ?_, ?_,
    hn 9 (by decide) (by decide) (by decide) (by decide)⟩
  · rw [hw]
    rfl
  · rw [hw]
    exact low_then_high_byte (lcd 3) 10 0 (by decide)
  · rw [hw]
    rfl

/-- C9: read-back under distinct pins. For every supported character, every
memory and every position whose four pins are pairwise distinct, after
`LCD_showChar` the nibbles of `pin1 .. pin4` read the four glyph values of the
character, all at once; pins that share a byte are not excluded. -/
theorem C9_readback_distinct_pins (lcd : SegMem) (ch : Nat) (pos : LCD_pin)
    (hch : Supported ch)
    (h12 : pos.pin1 ≠ pos.pin2) (h13 : pos.pin1 ≠ pos.pin3) (h14 : pos.pin1 ≠ pos.pin4)
    (h23 : pos.pin2 ≠ pos.pin3) (h24 : pos.pin2 ≠ pos.pin4) (h34 : pos.pin3 ≠ pos.pin4) :
    pinNibble (LCD_showChar lcd ch pos) pos.pin1 = glyph ch 0 ∧
    pinNibble (LCD_showChar lcd ch pos) pos.pin2 = glyph ch 1 ∧
    pinNibble (LCD_showChar lcd ch pos) pos.pin3 = glyph ch 2 ∧
    pinNibble (LCD_showChar lcd ch pos) pos.pin4 = glyph ch 3 := by
  have hr := fun i h => fourSteps_readback lcd pos (glyph ch) (glyph_lt ch) i h
  rw [← LCD_showChar_supported lcd ch pos hch] at hr
  refine ⟨hr 0 ?_, hr 1 ?_, hr 2 ?_, hr 3 ?_⟩
  · intro k hk
    fin_cases k
    · exact absurd hk (by decide)
    · exact h12.symm
    · exact h13.symm
    · exact h14.symm
  · intro k hk
    fin_cases k
    · exact absurd hk (by decide)
    · exact absurd hk (by decide)
    · exact h23.symm
    · exact h24.symm
  · intro k hk
    fin_cases k
    · exact absurd hk (by decide)
    · exact absurd hk (by decide)
    · exact absurd hk (by decide)
    · exact h34.symm
  · intro k hk
    fin_cases k <;> exact absurd hk (by decide)

/-- Witness for C9: `'8'` (code 56) at pins `{4, 5, 6, 7}`, where pins 4 and 5
share byte 2 and pins 6 and 7 share byte 3; the nibbles read `0x7`, `0xA`,
`0x0`, `0xE`. -/
theorem C9_readback_distinct_pins_witness :
    Supported 56 ∧
    pinNibble (LCD_showChar memA5 56 ⟨4, 5, 6, 7⟩) 4 = 0x7 ∧
    pinNibble (LCD_showChar memA5 56 ⟨4, 5, 6, 7⟩) 5 = 0xA ∧
    pinNibble (LCD_showChar memA5 56 ⟨4, 5, 6, 7⟩) 6 = 0x0 ∧
    pinNibble (LCD_showChar memA5 56 ⟨4, 5, 6, 7⟩) 7 = 0xE :=
  ⟨by decide,
    C9_readback_distinct_pins memA5 56 ⟨4, 5, 6, 7⟩ (by decide) (by decide) (by decide)
      (by decide) (by decide) (by decide) (by decide)⟩

/-- C10: later pin wins. For every supported character, memory and position,
repeated pin identifiers allowed, after `LCD_showChar` the nibble of pin number
`i` reads the glyph value number `j`, where `j` is the largest index whose pin
equals pin number `i`; in particular the nibble of `pin4` reads the fourth
glyph value. -/
theorem C10_later_pin_wins (lcd : SegMem) (ch : Nat) (pos : LCD_pin)
    (hch : Supported ch) :
    (∀ i j : Fin 4, pinAt pos j = pinAt pos i →
      (∀ k : Fin 4, j < k → pinAt pos k ≠ pinAt pos i) →
      pinNibble (LCD_showChar lcd ch pos) (pinAt pos i) = glyph ch j.val) ∧
    pinNibble (LCD_showChar lcd ch pos) pos.pin4 = glyph ch 3 := by
  have hr := fun i h => fourSteps_readback lcd pos (glyph ch) (glyph_lt ch) i h
  rw [← LCD_showChar_supported lcd ch pos hch] at hr
  constructor
  · intro i j hji hlast
    rw [← hji]
    exact hr j (fun k hk => by rw [hji]; exact hlast k hk)
  · exact hr 3 (fun k hk => by fin_cases k <;> exact absurd hk (by decide))

/-- Witness for C10: `'0'` (code 48) at pins `{0, 2, 4, 0}`. The first and the
fourth pin are the same; index 3 is the largest with that pin, and the nibble
of the first pin reads `0xA`, the fourth glyph value. -/
theorem C10_later_pin_wins_witness :
    Supported 48 ∧
    pinAt ⟨0, 2, 4, 0⟩ 3 = pinAt ⟨0, 2, 4, 0⟩ 0 ∧
    pinNibble (LCD_showChar memZero 48 ⟨0, 2, 4, 0⟩) (pinAt ⟨0, 2, 4, 0⟩ 0) = 0xA :=
  ⟨by decide, by decide,
    (C10_later_pin_wins memZero 48 ⟨0, 2, 4, 0⟩ (by decide)).1 0 3 (by decide) (by decide)⟩

/-! ## Memories compared nibble by nibble -/

/-- The nibble of any pin after one block. -/
theorem pinNibble_nibbleStep (lcd : SegMem) (pin g : Nat) (hg : g < 16) (q : Nat) :
    pinNibble (nibbleStep lcd pin g) q = if q = pin then g else pinNibble lcd q := by
  by_cases h : q = pin
  · rw [if_pos h, h]
    exact pinNibble_nibbleStep_same lcd pin g hg
  · rw [if_neg h]
    exact pinNibble_nibbleStep_other lcd pin g hg q h

/-- The nibble of any pin after the four blocks: the value of the last block
that targets the pin, the old nibble if none does. -/
theorem pinNibble_fourSteps (lcd : SegMem) (pos : LCD_pin) (g : Nat → Nat)
    (hg : ∀ i, g i < 16) (q : Nat) :
    pinNibble (fourSteps lcd pos (g 0) (g 1) (g 2) (g 3)) q =
      if q = pos.pin4 then g 3 else if q = pos.pin3 then g 2
      else if q = pos.pin2 then g 1 else if q = pos.pin1 then g 0
      else pinNibble lcd q := by
  unfold fourSteps
  rw [pinNibble_nibbleStep _ _ _ (hg 3), pinNibble_nibbleStep _ _ _ (hg 2),
    pinNibble_nibbleStep _ _ _ (hg 1), pinNibble_nibbleStep _ _ _ (hg 0)]

/-- A block leaves a byte value below 256 at the index it writes, and keeps
such a value where it does not write. -/
theorem nibbleStep_byte_lt (lcd : SegMem) (pin g : Nat) (hg : g < 16) (k : Nat)
    (hk : k = pin / 2 ∨ lcd k < 256) : nibbleStep lcd pin g k < 256 := by
  have hb : lcd (pin / 2) % 256 < 256 := Nat.mod_lt _ (by norm_num)
  rw [nibbleStep_apply lcd pin g hg k]
  by_cases h : k = pin / 2
  · rw [if_pos h]
    by_cases hp : pin % 2 ≠ 0
    · rw [if_pos hp]
      exact (high_write_byte _ hb g hg).1
    · rw [if_neg hp]
      exact (low_write_byte _ hb g hg).1
  · rw [if_neg h]
    rcases hk with hk | hk
    · exact absurd hk h
    · exact hk

/-- After the four blocks every targeted byte holds a value below 256, and so
does every byte that held one before. -/
theorem fourSteps_byte_lt (lcd : SegMem) (pos : LCD_pin) (g : Nat → Nat)
    (hg : ∀ i, g i < 16) (k : Nat)
    (hk : (k = pos.pin1 / 2 ∨ k = pos.pin2 / 2 ∨ k = pos.pin3 / 2 ∨ k = pos.pin4 / 2) ∨
      lcd k < 256) :
    fourSteps lcd pos (g 0) (g 1) (g 2) (g 3) k < 256 := by
  unfold fourSteps
  have s1 : k = pos.pin1 / 2 ∨ lcd k < 256 →
      nibbleStep lcd pos.pin1 (g 0) k < 256 := nibbleStep_byte_lt lcd _ _ (hg 0) k
  have s2 := nibbleStep_byte_lt (nibbleStep lcd pos.pin1 (g 0)) pos.pin2 _ (hg 1) k
  have s3 := nibbleStep_byte_lt
    (nibbleStep (nibbleStep lcd pos.pin1 (g 0)) pos.pin2 (g 1)) pos.pin3 _ (hg 2) k
  have s4 := nibbleStep_byte_lt
    (nibbleStep (nibbleStep (nibbleStep lcd pos.pin1 (g 0)) pos.pin2 (g 1)) pos.pin3 (g 2))
    pos.pin4 _ (hg 3) k
  rcases hk with (h | h | h | h) | h
  · exact s4 (Or.inr (s3 (Or.inr (s2 (Or.inr (s1 (Or.inl h)))))))
  · exact s4 (Or.inr (s3 (Or.inr (s2 (Or.inl h)))))
  · exact s4 (Or.inr (s3 (Or.inl h)))
  · exact s4 (Or.inl h)
  · exact s4 (Or.inr (s3 (Or.inr (s2 (Or.inr (s1 (Or.inr h)))))))

/-- A byte is determined by its two nibbles. -/
theorem byte_eq_of_nibbles (a b : Nat) (ha : a < 256) (hb : b < 256)
    (hlow : a &&& 0x0F = b &&& 0x0F)
    (hhigh : (a >>> 4) &&& 0x0F = (b >>> 4) &&& 0x0F) : a = b := by
  have e1 := Nat.and_pow_two_sub_one_eq_mod a 4
  have e2 := Nat.and_pow_two_sub_one_eq_mod b 4
  have e3 := Nat.and_pow_two_sub_one_eq_mod (a >>> 4) 4
  have e4 := Nat.and_pow_two_sub_one_eq_mod (b >>> 4) 4
  norm_num at e1 e2 e3 e4
  rw [e1, e2] at hlow
  rw [e3, e4, Nat.shiftRight_eq_div_pow, Nat.shiftRight_eq_div_pow] at hhigh
  norm_num at hhigh
  omega

/-- Two memories are equal when every pin reads the same nibble in both and
every byte either is a byte value in both or is the same in both. -/
theorem segMem_eq_of_nibbles (m1 m2 : SegMem)
    (hn : ∀ q, pinNibble m1 q = pinNibble m2 q)
    (hb : ∀ k, (m1 k < 256 ∧ m2 k < 256) ∨ m1 k = m2 k) : m1 = m2 := by
  funext k
  rcases hb k with ⟨h1, h2⟩ | h
  · have he := hn (2 * k)
    have ho := hn (2 * k + 1)
    unfold pinNibble DL_LCD_getMemory at he ho
    have d0 : 2 * k / 2 = k := by omega
    have d1 : (2 * k + 1) / 2 = k := by omega
    have p0 : ¬ (2 * k % 2 ≠ 0) := by omega
    have p1 : (2 * k + 1) % 2 ≠ 0 := by omega
    simp only [if_neg p0, d0, Nat.mod_eq_of_lt h1, Nat.mod_eq_of_lt h2] at he
    simp only [if_pos p1, d1, Nat.mod_eq_of_lt h1, Nat.mod_eq_of_lt h2] at ho
    exact byte_eq_of_nibbles _ _ h1 h2 he ho
  · exact h

/-- Running the four blocks twice at one position, with any two rows of 4-bit
values, gives what the second run alone gives. -/
theorem fourSteps_overwrite (lcd : SegMem) (pos : LCD_pin) (g h : Nat → Nat)
    (hg : ∀ i, g i < 16) (hh : ∀ i, h i < 16) :
    fourSteps (fourSteps lcd pos (g 0) (g 1) (g 2) (g 3)) pos (h 0) (h 1) (h 2) (h 3) =
      fourSteps lcd pos (h 0) (h 1) (h 2) (h 3) := by
  apply segMem_eq_of_nibbles
  · intro q
    rw [pinNibble_fourSteps _ _ h hh, pinNibble_fourSteps _ _ h hh,
      pinNibble_fourSteps _ _ g hg]
    split_ifs <;> rfl
  · intro k
    by_cases hit : k = pos.pin1 / 2 ∨ k = pos.pin2 / 2 ∨ k = pos.pin3 / 2 ∨ k = pos.pin4 / 2
    · exact Or.inl ⟨fourSteps_byte_lt _ pos h hh k (Or.inl hit),
        fourSteps_byte_lt _ pos h hh k (Or.inl hit)⟩
    · have h1 : k ≠ pos.pin1 / 2 := fun e => hit (Or.inl e)
      have h2 : k ≠ pos.pin2 / 2 := fun e => hit (Or.inr (Or.inl e))
      have h3 : k ≠ pos.pin3 / 2 := fun e => hit (Or.inr (Or.inr (Or.inl e)))
      have h4 : k ≠ pos.pin4 / 2 := fun e => hit (Or.inr (Or.inr (Or.inr e)))
      right
      rw [fourSteps_byte_other _ pos h hh k h1 h2 h3 h4,
        fourSteps_byte_other _ pos h hh k h1 h2 h3 h4,
        fourSteps_byte_other _ pos g hg k h1 h2 h3 h4]

/-- A number equal to one of four numbers differs from whatever all four
differ from. -/
theorem ne_of_one_of_four (q a1 a2 a3 a4 b : Nat)
    (hq : q = a1 ∨ q = a2 ∨ q = a3 ∨ q = a4)
    (h1 : a1 ≠ b) (h2 : a2 ≠ b) (h3 : a3 ≠ b) (h4 : a4 ≠ b) : q ≠ b := by
  omega

/-- The four blocks at two positions without a common pin commute. -/
theorem fourSteps_comm (lcd : SegMem) (pa pb : LCD_pin) (g h : Nat → Nat)
    (hg : ∀ i, g i < 16) (hh : ∀ i, h i < 16)
    (hd : ∀ i j : Fin 4, pinAt pa i ≠ pinAt pb j) :
    fourSteps (fourSteps lcd pa (g 0) (g 1) (g 2) (g 3)) pb (h 0) (h 1) (h 2) (h 3) =
      fourSteps (fourSteps lcd pb (h 0) (h 1) (h 2) (h 3)) pa (g 0) (g 1) (g 2) (g 3) := by
  have d11 : pa.pin1 ≠ pb.pin1 := hd 0 0
  have d12 : pa.pin1 ≠ pb.pin2 := hd 0 1
  have d13 : pa.pin1 ≠ pb.pin3 := hd 0 2
  have d14 : pa.pin1 ≠ pb.pin4 := hd 0 3
  have d21 : pa.pin2 ≠ pb.pin1 := hd 1 0
  have d22 : pa.pin2 ≠ pb.pin2 := hd 1 1
  have d23 : pa.pin2 ≠ pb.pin3 := hd 1 2
  have d24 : pa.pin2 ≠ pb.pin4 := hd 1 3
  have d31 : pa.pin3 ≠ pb.pin1 := hd 2 0
  have d32 : pa.pin3 ≠ pb.pin2 := hd 2 1
  have d33 : pa.pin3 ≠ pb.pin3 := hd 2 2
  have d34 : pa.pin3 ≠ pb.pin4 := hd 2 3
  have d41 : pa.pin4 ≠ pb.pin1 := hd 3 0
  have d42 : pa.pin4 ≠ pb.pin2 := hd 3 1
  have d43 : pa.pin4 ≠ pb.pin3 := hd 3 2
  have d44 : pa.pin4 ≠ pb.pin4 := hd 3 3
  apply segMem_eq_of_nibbles
  · intro q
    by_cases hqa : q = pa.pin1 ∨ q = pa.pin2 ∨ q = pa.pin3 ∨ q = pa.pin4
    · have b1 : q ≠ pb.pin1 := ne_of_one_of_four q _ _ _ _ _ hqa d11 d21 d31 d41
      have b2 : q ≠ pb.pin2 := ne_of_one_of_four q _ _ _ _ _ hqa d12 d22 d32 d42
      have b3 : q ≠ pb.pin3 := ne_of_one_of_four q _ _ _ _ _ hqa d13 d23 d33 d43
      have b4 : q ≠ pb.pin4 := ne_of_one_of_four q _ _ _ _ _ hqa d14 d24 d34 d44
      rw [fourSteps_nibble_other _ pb h hh q b1 b2 b3 b4, pinNibble_fourSteps _ _ g hg,
        pinNibble_fourSteps _ _ g hg, fourSteps_nibble_other _ pb h hh q b1 b2 b3 b4]
    · have a1 : q ≠ pa.pin1 := fun e => hqa (Or.inl e)
      have a2 : q ≠ pa.pin2 := fun e => hqa (Or.inr (Or.inl e))
      have a3 : q ≠ pa.pin3 := fun e => hqa (Or.inr (Or.inr (Or.inl e)))
      have a4 : q ≠ pa.pin4 := fun e => hqa (Or.inr (Or.inr (Or.inr e)))
      rw [fourSteps_nibble_other _ pa g hg q a1 a2 a3 a4, pinNibble_fourSteps _ _ h hh,
        pinNibble_fourSteps _ _ h hh, fourSteps_nibble_other _ pa g hg q a1 a2 a3 a4]
  · intro k
    by_cases hita : k = pa.pin1 / 2 ∨ k = pa.pin2 / 2 ∨ k = pa.pin3 / 2 ∨ k = pa.pin4 / 2
    · exact Or.inl ⟨fourSteps_byte_lt _ pb h hh k
          (Or.inr (fourSteps_byte_lt lcd pa g hg k (Or.inl hita))),
        fourSteps_byte_lt _ pa g hg k (Or.inl hita)⟩
    · by_cases hitb : k = pb.pin1 / 2 ∨ k = pb.pin2 / 2 ∨ k = pb.pin3 / 2 ∨ k = pb.pin4 / 2
      · exact Or.inl ⟨fourSteps_byte_lt _ pb h hh k (Or.inl hitb),
          fourSteps_byte_lt _ pa g hg k
            (Or.inr (fourSteps_byte_lt lcd pb h hh k (Or.inl hitb)))⟩
      · have a1 : k ≠ pa.pin1 / 2 := fun e => hita (Or.inl e)
        have a2 : k ≠ pa.pin2 / 2 := fun e => hita (Or.inr (Or.inl e))
        have a3 : k ≠ pa.pin3 / 2 := fun e => hita (Or.inr (Or.inr (Or.inl e)))
        have a4 : k ≠ pa.pin4 / 2 := fun e => hita (Or.inr (Or.inr (Or.inr e)))
        have b1 : k ≠ pb.pin1 / 2 := fun e => hitb (Or.inl e)
        have b2 : k ≠ pb.pin2 / 2 := fun e => hitb (Or.inr (Or.inl e))
        have b3 : k ≠ pb.pin3 / 2 := fun e => hitb (Or.inr (Or.inr (Or.inl e)))
        have b4 : k ≠ pb.pin4 / 2 := fun e => hitb (Or.inr (Or.inr (Or.inr e)))
        right
        rw [fourSteps_byte_other _ pb h hh k b1 b2 b3 b4,
          fourSteps_byte_other _ pa g hg k a1 a2 a3 a4,
          fourSteps_byte_other _ pa g hg k a1 a2 a3 a4,
          fourSteps_byte_other _ pb h hh k b1 b2 b3 b4]

/-- Rendering any character leaves the nibble of every pin outside the
position as it was. -/
theorem LCD_showChar_nibble_other (lcd : SegMem) (ch : Nat) (pos : LCD_pin) (q : Nat)
    (hq : ∀ i : Fin 4, pinAt pos i ≠ q) :
    pinNibble (LCD_showChar lcd ch pos) q = pinNibble lcd q := by
  by_cases hch : Supported ch
  · rw [LCD_showChar_supported lcd ch pos hch]
    exact fourSteps_nibble_other lcd pos (glyph ch) (glyph_lt ch) q
      (fun e => hq 0 e.symm) (fun e => hq 1 e.symm) (fun e => hq 2 e.symm)
      (fun e => hq 3 e.symm)
  · rw [LCD_showChar_other lcd ch pos hch]

/-- No pin of one of the six positions of `main` occurs in another. -/
theorem mainPosition_pins_disjoint :
    ∀ a b : Fin 6, a ≠ b → ∀ i j : Fin 4,
      pinAt (mainPosition a) i ≠ pinAt (mainPosition b) j := by
  decide

/-- C11: the six positions configured in `main` do not interfere. With
`DL_LCD_SEGMENT_LINE_n` the integer `n`, the 24 pin identifiers assigned to
`gLCDPinPosition1 .. 6` are pairwise distinct and each lies in 0..59; hence
rendering any character at one of the six positions leaves the four nibbles of
each of the other five positions unchanged. -/
theorem C11_main_positions_do_not_interfere :
    mainPins.length = 24 ∧ mainPins.Nodup ∧
    (∀ (a : Fin 6) (i : Fin 4), pinAt (mainPosition a) i ≤ 59) ∧
    (∀ (lcd : SegMem) (ch : Nat) (a b : Fin 6), a ≠ b → ∀ i : Fin 4,
      pinNibble (LCD_showChar lcd ch (mainPosition a)) (pinAt (mainPosition b) i) =
        pinNibble lcd (pinAt (mainPosition b) i)) := by
  refine ⟨by decide, by decide, by decide, ?_⟩
  intro lcd ch a b hab i
  exact LCD_showChar_nibble_other lcd ch (mainPosition a) _
    (fun j => mainPosition_pins_disjoint a b hab j i)

/-- Witness for C11: `'8'` rendered at position 2 (pins 36, 37, 38, 18) on a
memory of `0xA5` bytes leaves pin 19 of position 3, which shares byte 9 with
pin 18, at its old nibble `0xA`. -/
theorem C11_main_positions_do_not_interfere_witness :
    (1 : Fin 6) ≠ 2 ∧ pinAt (mainPosition 2) 0 = 19 ∧
    pinNibble (LCD_showChar memA5 56 (mainPosition 1)) (pinAt (mainPosition 2) 0) = 0xA :=
  ⟨by decide, by decide,
    C11_main_positions_do_not_interfere.2.2.2 memA5 56 1 2 (by decide) 0⟩

/-- C12: overwrite without residue. For all supported characters `c1` and
`c2`, every position and every memory, rendering `c1` and then `c2` at the same
position gives exactly the memory that rendering `c2` alone gives. -/
theorem C12_overwrite_without_residue (lcd : SegMem) (c1 c2 : Nat) (pos : LCD_pin)
    (h1 : Supported c1) (h2 : Supported c2) :
    LCD_showChar (LCD_showChar lcd c1 pos) c2 pos = LCD_showChar lcd c2 pos := by
  rw [LCD_showChar_supported _ c2 pos h2, LCD_showChar_supported _ c2 pos h2,
    LCD_showChar_supported _ c1 pos h1]
  exact fourSteps_overwrite lcd pos (glyph c1) (glyph c2) (glyph_lt c1) (glyph_lt c2)

/-- Witness for C12: `'8'` then `'1'` at pins `{1, 2, 3, 4}` on a memory of
`0xA5` bytes; byte 1, written entirely by the position, ends as `0x00`, with
no bit of the `0x0A` that `'8'` had left there. -/
theorem C12_overwrite_without_residue_witness :
    Supported 56 ∧ Supported 49 ∧
    LCD_showChar (LCD_showChar memA5 56 ⟨1, 2, 3, 4⟩) 49 ⟨1, 2, 3, 4⟩ =
      LCD_showChar memA5 49 ⟨1, 2, 3, 4⟩ ∧
    LCD_showChar memA5 56 ⟨1, 2, 3, 4⟩ 1 = 0x0A ∧
    LCD_showChar memA5 49 ⟨1, 2, 3, 4⟩ 1 = 0x00 :=
  ⟨by decide, by decide,
    C12_overwrite_without_residue memA5 56 49 ⟨1, 2, 3, 4⟩ (by decide) (by decide),
    by decide, by decide⟩

/-- C13: idempotence. For every character, supported or not, every position
and every memory, calling `LCD_showChar` twice with the same character and
position gives the same memory as calling it once. -/
theorem C13_idempotent (lcd : SegMem) (ch : Nat) (pos : LCD_pin) :
    LCD_showChar (LCD_showChar lcd ch pos) ch pos = LCD_showChar lcd ch pos := by
  by_cases hch : Supported ch
  · rw [LCD_showChar_supported _ ch pos hch, LCD_showChar_supported _ ch pos hch]
    exact fourSteps_overwrite lcd pos (glyph ch) (glyph ch) (glyph_lt ch) (glyph_lt ch)
  · rw [LCD_showChar_other _ ch pos hch, LCD_showChar_other _ ch pos hch]

/-- C14: commutativity on disjoint positions. For any two characters and any
two positions that have no pin in common (they may share bytes), rendering the
first character at the first position and then the second at the second gives
the same memory as rendering them in the opposite order. -/
theorem C14_commute_on_disjoint_positions (lcd : SegMem) (ca cb : Nat)
    (pa pb : LCD_pin) (hd : ∀ i j : Fin 4, pinAt pa i ≠ pinAt pb j) :
    LCD_showChar (LCD_showChar lcd ca pa) cb pb =
      LCD_showChar (LCD_showChar lcd cb pb) ca pa := by
  by_cases ha : Supported ca
  · by_cases hb : Supported cb
    · rw [LCD_showChar_supported _ cb pb hb, LCD_showChar_supported _ ca pa ha,
        LCD_showChar_supported _ ca pa ha, LCD_showChar_supported _ cb pb hb]
      exact fourSteps_comm lcd pa pb (glyph ca) (glyph cb) (glyph_lt ca) (glyph_lt cb) hd
    · rw [LCD_showChar_other _ cb pb hb, LCD_showChar_other _ cb pb hb]
  · rw [LCD_showChar_other _ ca pa ha, LCD_showChar_other _ ca pa ha]

/-- Witness for C14: `'0'` at the even pins `{0, 2, 4, 6}` and `'B'` at the
odd pins `{1, 3, 5, 7}`; the two positions share all four of their bytes and
no pin. -/
theorem C14_commute_on_disjoint_positions_witness :
    (∀ i j : Fin 4, pinAt ⟨0, 2, 4, 6⟩ i ≠ pinAt ⟨1, 3, 5, 7⟩ j) ∧
    LCD_showChar (LCD_showChar memA5 48 ⟨0, 2, 4, 6⟩) 66 ⟨1, 3, 5, 7⟩ =
      LCD_showChar (LCD_showChar memA5 66 ⟨1, 3, 5, 7⟩) 48 ⟨0, 2, 4, 6⟩ :=
  ⟨by decide,
    C14_commute_on_disjoint_positions memA5 48 66 ⟨0, 2, 4, 6⟩ ⟨1, 3, 5, 7⟩ (by decide)⟩

/-- Every supported character code is in the list of the 36 codes. -/
theorem mem_supportedChars (ch : Nat) (h : Supported ch) : ch ∈ supportedChars := by
  rcases h with ⟨h1, h2⟩ | ⟨h1, h2⟩
  · exact List.mem_append_left _ (List.mem_map.mpr ⟨ch - 48, List.mem_range.mpr (by omega),
      by omega⟩)
  · exact List.mem_append_right _ (List.mem_map.mpr ⟨ch - 65, List.mem_range.mpr (by omega),
      by omega⟩)

/-- The 36 glyph rows are pairwise different. -/
theorem glyphRows_nodup : (supportedChars.map glyphRow).Nodup := by decide

/-- Two supported characters with the same glyph row are the same. -/
theorem glyphRow_injective (c1 c2 : Nat) (h1 : Supported c1) (h2 : Supported c2)
    (h : glyphRow c1 = glyphRow c2) : c1 = c2 :=
  List.inj_on_of_nodup_map glyphRows_nodup (mem_supportedChars c1 h1)
    (mem_supportedChars c2 h2) h

/-- At a position with pairwise distinct pins, the four nibbles read after
rendering a supported character are its glyph row. -/
theorem readPosition_showChar (lcd : SegMem) (ch : Nat) (pos : LCD_pin)
    (hch : Supported ch)
    (h12 : pos.pin1 ≠ pos.pin2) (h13 : pos.pin1 ≠ pos.pin3) (h14 : pos.pin1 ≠ pos.pin4)
    (h23 : pos.pin2 ≠ pos.pin3) (h24 : pos.pin2 ≠ pos.pin4) (h34 : pos.pin3 ≠ pos.pin4) :
    readPosition (LCD_showChar lcd ch pos) pos = glyphRow ch := by
  unfold readPosition pinsOf glyphRow
  rw [LCD_showChar_supported lcd ch pos hch]
  simp only [List.map_cons, List.map_nil, pinNibble_fourSteps lcd pos (glyph ch) (glyph_lt ch),
    if_neg h14, if_neg h13, if_neg h12, if_neg h24, if_neg h23, if_neg h34, if_true,
    eq_self_iff_true]

/-- C15: the glyph encoding is injective over the 36 supported characters. Two
characters in `'0'..'9'` or `'A'..'Z'` with the same four glyph values, across
both tables, are the same character; hence at a position with pairwise distinct
pins the four nibbles read after rendering determine the character rendered,
whatever the memory was before. -/
theorem C15_glyph_encoding_injective :
    supportedChars.length = 36 ∧
    (∀ c1 c2 : Nat, Supported c1 → Supported c2 → glyphRow c1 = glyphRow c2 → c1 = c2) ∧
    (∀ (lcd1 lcd2 : SegMem) (c1 c2 : Nat) (pos : LCD_pin),
      Supported c1 → Supported c2 → (pinsOf pos).Nodup →
      readPosition (LCD_showChar lcd1 c1 pos) pos =
        readPosition (LCD_showChar lcd2 c2 pos) pos →
      c1 = c2) := by
  refine ⟨rfl, glyphRow_injective, ?_⟩
  intro lcd1 lcd2 c1 c2 pos h1 h2 hnd hread
  have hp : pos.pin1 ≠ pos.pin2 ∧ pos.pin1 ≠ pos.pin3 ∧ pos.pin1 ≠ pos.pin4 ∧
      pos.pin2 ≠ pos.pin3 ∧ pos.pin2 ≠ pos.pin4 ∧ pos.pin3 ≠ pos.pin4 := by
    unfold pinsOf at hnd
    simp only [List.nodup_cons, List.mem_cons, List.mem_singleton, List.not_mem_nil,
      not_or, or_false, not_false_eq_true, List.nodup_nil, and_true] at hnd
    exact ⟨hnd.1.1, hnd.1.2.1, hnd.1.2.2, hnd.2.1.1, hnd.2.1.2, hnd.2.2⟩
  obtain ⟨h12, h13, h14, h23, h24, h34⟩ := hp
  rw [readPosition_showChar lcd1 c1 pos h1 h12 h13 h14 h23 h24 h34,
    readPosition_showChar lcd2 c2 pos h2 h12 h13 h14 h23 h24 h34] at hread
  exact glyphRow_injective c1 c2 h1 h2 hread

/-- Witness for C15: `'0'` and `'O'` (codes 48 and 79), the two most similar
shapes, have different glyph rows; and the nibbles read at pins `{4, 5, 6, 7}`
after rendering `'S'` (code 83) on two different memories can only come from
the same character. -/
theorem C15_glyph_encoding_injective_witness :
    Supported 83 ∧ (pinsOf ⟨4, 5, 6, 7⟩).Nodup ∧ glyphRow 48 ≠ glyphRow 79 ∧
    readPosition (LCD_showChar memA5 83 ⟨4, 5, 6, 7⟩) ⟨4, 5, 6, 7⟩ =
      readPosition (LCD_showChar memZero 83 ⟨4, 5, 6, 7⟩) ⟨4, 5, 6, 7⟩ ∧
    (83 : Nat) = 83 :=
  ⟨by decide, by decide, by decide, by decide,
    C15_glyph_encoding_injective.2.2 memA5 memZero 83 83 ⟨4, 5, 6, 7⟩ (by decide) (by decide)
      (by decide) (by decide)⟩

end LcdWriteMemory
